import Mathlib

/-!
Verification of the LaTeX-to-safe-HTML pipeline and the tolerant parsing
utilities of the artifact-browser script (`script.js`).  JavaScript strings
are modelled as `List Char`; every string transform of the script is embedded
as a total, executable Lean function.  Regular-expression global replaces are
embedded as left-to-right scanners that, at each position, either fire the
pattern (emitting its replacement and skipping the consumed characters) or
copy one character, exactly as the JS regex engine does for the patterns in
question (all of which are deterministic at a given start position).
-/

namespace MarsScript


/-- Characters matched by the JavaScript regular-expression class `\s`
(used by `trim`, `\s*` and the whitespace-collapsing replace). -/
def isJsWs (c : Char) : Bool :=
  c = ' ' || c = '\t' || c = '\n' || c.toNat = 11 || c.toNat = 12 || c = '\r' ||
  c.toNat = 0xA0 || c.toNat = 0x1680 || (0x2000 ≤ c.toNat && c.toNat ≤ 0x200A) ||
  c.toNat = 0x2028 || c.toNat = 0x2029 || c.toNat = 0x202F || c.toNat = 0x205F ||
  c.toNat = 0x3000 || c.toNat = 0xFEFF

/-- Length of the leading run of JS whitespace characters (greedy `\s*`). -/
def wsCount : List Char → Nat
  | [] => 0
  | c :: cs => if isJsWs c then wsCount cs + 1 else 0

/-- JavaScript `String.prototype.trim`. -/
def jsTrim (s : List Char) : List Char :=
  ((s.dropWhile isJsWs).reverse.dropWhile isJsWs).reverse

/-- Boolean prefix test on character lists. -/
def isPre : List Char → List Char → Bool
  | [], _ => true
  | _ :: _, [] => false
  | a :: as, b :: bs => if a = b then isPre as bs else false

/-- Boolean contiguous-substring test on character lists. -/
def hasSub (pat : List Char) : List Char → Bool
  | [] => decide (pat = [])
  | c :: cs => isPre pat (c :: cs) || hasSub pat cs

/-- Image of one character under the escaping replace
`.replace(/[&<>"\x27]/g, ...)` used by both copies of `escapeHTML`
(script.js lines 53-55 and 118-120). -/
def escChar (c : Char) : List Char :=
  if c = '&' then ['&', 'a', 'm', 'p', ';']
  else if c = '<' then ['&', 'l', 't', ';']
  else if c = '>' then ['&', 'g', 't', ';']
  else if c = '\x22' then ['&', 'q', 'u', 'o', 't', ';']
  else if c = '\x27' then ['&', '#', '3', '9', ';']
  else [c]

/-- The HTML escaper of script.js (lines 53-55 and, identically, 118-120):
each of the five HTML-sensitive characters is replaced by its named entity,
every other character is copied. -/
def escapeHTML : List Char → List Char
  | [] => []
  | c :: cs => escChar c ++ escapeHTML cs

/-- Fueled driver for a global left-to-right regex replace.  `pat s` returns
the replacement text and the number of characters consumed when the pattern
matches at the head of `s`.  Every pattern used below consumes at least one
character, so `max n 1` only guards the recursion and never changes the
semantics.  The fuel-exhausted branch is unreachable for the fuel supplied by
`scanAll` since every step removes at least one character. -/
def scanF (pat : List Char → Option (List Char × Nat)) : Nat → List Char → List Char
  | _, [] => []
  | 0, l => l
  | fuel + 1, c :: cs =>
    match pat (c :: cs) with
    | some (r, n) => r ++ scanF pat fuel ((c :: cs).drop (max n 1))
    | none => c :: scanF pat fuel cs

/-- Global left-to-right regex replace over a whole string. -/
def scanAll (pat : List Char → Option (List Char × Nat)) (s : List Char) : List Char :=
  scanF pat (s.length + 1) s

/-- Pattern recognising one HTML entity produced by `escapeHTML`, returning
the character it denotes.  Used to express the spec's "undoing the HTML
escaping" (inverse entity substitution). -/
def unescPat (s : List Char) : Option (List Char × Nat) :=
  if isPre ['&', 'a', 'm', 'p', ';'] s then some (['&'], 5)
  else if isPre ['&', 'l', 't', ';'] s then some (['<'], 4)
  else if isPre ['&', 'g', 't', ';'] s then some (['>'], 4)
  else if isPre ['&', 'q', 'u', 'o', 't', ';'] s then some (['\x22'], 6)
  else if isPre ['&', '#', '3', '9', ';'] s then some (['\x27'], 5)
  else none

/-- Inverse entity substitution ("unescaping"), modelled from the spec's
round-trip property: each named entity written by `escapeHTML` is replaced by
the character it denotes, left to right. -/
def unescapeHTML (s : List Char) : List Char := scanAll unescPat s

/-- Index of the first occurrence of `pat` as a contiguous substring
(the non-greedy search for the nearest closing delimiter). -/
def firstSubIdx (pat : List Char) : List Char → Option Nat
  | [] => if pat = [] then some 0 else none
  | c :: cs => if isPre pat (c :: cs) then some 0 else (firstSubIdx pat cs).map (· + 1)

/-- Length of the math-delimiter match at the head of the string, if any, for
the segmenter regex of script.js line 58
`(\\(...\\)|\\[...\\]|$$...$$|$...$)` with non-greedy bodies: alternatives are
tried in order, each closing at the nearest closer; a double dollar with no
closing `$$` still matches as an empty `$...$` span. -/
def tryMathAt : List Char → Option Nat
  | '\\' :: '(' :: t => (firstSubIdx ['\\', ')'] t).map (· + 4)
  | '\\' :: '[' :: t => (firstSubIdx ['\\', ']'] t).map (· + 4)
  | '$' :: '$' :: t =>
    match firstSubIdx ['$', '$'] t with
    | some i => some (i + 4)
    | none => some 2
  | '$' :: t => (firstSubIdx ['$'] t).map (· + 2)
  | _ => none

/-- Leftmost math-delimiter match: gap before the match, the match, and the
rest of the string after it. -/
def findMath : List Char → Option (List Char × List Char × List Char)
  | [] => none
  | c :: cs =>
    match tryMathAt (c :: cs) with
    | some n => some ([], (c :: cs).take n, (c :: cs).drop n)
    | none => (findMath cs).map (fun x => (c :: x.1, x.2.1, x.2.2))

/-- Pattern for `\hspace\s*\{\s*\}` (an empty `\hspace` brace group, possibly
with whitespace inside), replaced by `\,` (script.js line 68). -/
def emptyHspacePat (s : List Char) : Option (List Char × Nat) :=
  if isPre ['\\', 'h', 's', 'p', 'a', 'c', 'e'] s then
    let t := s.drop 7
    let k1 := wsCount t
    match t.drop k1 with
    | '\x7b' :: u =>
      let k2 := wsCount u
      match u.drop k2 with
      | '\x7d' :: _ => some (['\\', ','], 7 + k1 + 1 + k2 + 1)
      | _ => none
    | _ => none
  else none

/-- Does `\s*\{[^\x7d]+\x7d` (a non-empty brace group, after optional
whitespace) match at the head of `t`?  This is the negative lookahead of the
bare-`\hspace` repair (script.js line 69). -/
def hspaceGroupAhead (t : List Char) : Bool :=
  let k := wsCount t
  match t.drop k with
  | '\x7b' :: u =>
    match firstSubIdx ['\x7d'] u with
    | some 0 => false
    | some _ => true
    | none => false
  | _ => false

/-- Pattern for a bare `\hspace` not followed by a non-empty brace group,
replaced by `\,` (script.js line 69). -/
def bareHspacePat (s : List Char) : Option (List Char × Nat) :=
  if isPre ['\\', 'h', 's', 'p', 'a', 'c', 'e'] s then
    if hspaceGroupAhead (s.drop 7) then none else some (['\\', ','], 7)
  else none

/-- The charwise global replace `.replace(/c/g, r)` for a single-character
pattern and replacement. -/
def jsReplaceChar (c r : Char) (s : List Char) : List Char :=
  s.map (fun x => if x = c then r else x)

/-- The math-segment transform of script.js lines 67-71: repair empty and
bare `\hspace` to `\,`, then apply the two character replaces of lines 70-71.
Note that the source replaces `<` by `<` and `>` by `>` — literally the same
characters, not their HTML entities. -/
def repairMath (m : List Char) : List Char :=
  jsReplaceChar '>' '>' (jsReplaceChar '<' '<'
    (scanAll bareHspacePat (scanAll emptyHspacePat m)))

/-- Fueled form of the split-and-escape loop of script.js lines 58-77. -/
def segEscF : Nat → List Char → List Char
  | 0, s => escapeHTML s
  | fuel + 1, s =>
    match findMath s with
    | none => escapeHTML s
    | some (g, m, r) => escapeHTML g ++ repairMath m ++ segEscF fuel r

/-- The split-and-escape loop of script.js lines 58-77: plain gaps between
math matches are HTML-escaped, math matches pass through `repairMath`. -/
def segmentEscape (s : List Char) : List Char := segEscF (s.length + 1) s

/-- Fueled segment view: the (isMath, content) spans the loop visits, with
empty plain gaps omitted. -/
def segViewF : Nat → List Char → List (Bool × List Char)
  | 0, s => if s = [] then [] else [(false, s)]
  | fuel + 1, s =>
    match findMath s with
    | none => if s = [] then [] else [(false, s)]
    | some (g, m, r) =>
      (if g = [] then [] else [(false, g)]) ++ (true, m) :: segViewF fuel r

/-- The segmentation of a string into plain and math spans. -/
def segView (s : List Char) : List (Bool × List Char) := segViewF (s.length + 1) s

/-- Concatenation of the raw contents of a span list. -/
def segJoin (L : List (Bool × List Char)) : List Char :=
  L.foldr (fun p acc => p.2 ++ acc) []

/-- Rendering of a span list: plain spans escaped, math spans repaired. -/
def segRender (L : List (Bool × List Char)) : List Char :=
  L.foldr (fun p acc => (if p.1 then repairMath p.2 else escapeHTML p.2) ++ acc) []

/-- The line-break sentinel `__BR_SENTINEL__` of script.js line 49. -/
def SENTINEL : List Char :=
  ['_', '_', 'B', 'R', '_', 'S', 'E', 'N', 'T', 'I', 'N', 'E', 'L', '_', '_']

/-- Try to match `\end\{env\*?\}` at the head of `s`, returning its length. -/
def endEnvAt (env : List Char) (s : List Char) : Option Nat :=
  if isPre (['\\', 'e', 'n', 'd', '\x7b'] ++ env) s then
    match s.drop (5 + env.length) with
    | '*' :: '\x7d' :: _ => some (5 + env.length + 2)
    | '\x7d' :: _ => some (5 + env.length + 1)
    | _ => none
  else none

/-- Earliest position at which `\end\{env\*?\}` matches (non-greedy body),
together with the length of that closer. -/
def findEndEnv (env : List Char) : List Char → Option (Nat × Nat)
  | [] => none
  | c :: cs =>
    match endEnvAt env (c :: cs) with
    | some len => some (0, len)
    | none => (findEndEnv env cs).map (fun p => (p.1 + 1, p.2))

/-- Try to match `\begin\{(equation|align)\*?\}` at the head of `s`,
returning the environment name (the capture group, star excluded) and the
length consumed. -/
def beginMathEnvAt (s : List Char) : Option (List Char × Nat) :=
  if isPre ['\\', 'b', 'e', 'g', 'i', 'n', '\x7b'] s then
    let t := s.drop 7
    let tryEnv : List Char → Option (List Char × Nat) := fun env =>
      if isPre env t then
        match t.drop env.length with
        | '*' :: '\x7d' :: _ => some (env, 7 + env.length + 2)
        | '\x7d' :: _ => some (env, 7 + env.length + 1)
        | _ => none
      else none
    match tryEnv ['e', 'q', 'u', 'a', 't', 'i', 'o', 'n'] with
    | some p => some p
    | none => tryEnv ['a', 'l', 'i', 'g', 'n']
  else none

/-- Pattern for `\begin\{(equation|align)\*?\}([\s\S]*?)\end\{\1\*?\}`,
replaced by `\[` + trimmed body + `\]` (script.js lines 31-33). -/
def envPat (s : List Char) : Option (List Char × Nat) :=
  match beginMathEnvAt s with
  | some (env, blen) =>
    match findEndEnv env (s.drop blen) with
    | some (i, elen) =>
      some (['\\', '['] ++ jsTrim ((s.drop blen).take i) ++ ['\\', ']'],
        blen + i + elen)
    | none => none
  | none => none

/-- Length of a `\{[^\x7d]*\}` brace group at the head of `t`, if present. -/
def braceGroupAt (t : List Char) : Option Nat :=
  match t with
  | '\x7b' :: u =>
    match firstSubIdx ['\x7d'] u with
    | some i => some (1 + i + 1)
    | none => none
  | _ => none

/-- The command names of the cleanup replace `\(label|ref|eqref|cite)\{...\}`
(script.js line 38), in the source's alternation order. -/
def cmdNames : List (List Char) :=
  [['l', 'a', 'b', 'e', 'l'], ['r', 'e', 'f'], ['e', 'q', 'r', 'e', 'f'],
    ['c', 'i', 't', 'e']]

/-- Try each command name in order: the name must match and be followed by a
brace group; on success return the length consumed after the backslash. -/
def tryCmdNames : List (List Char) → List Char → Option Nat
  | [], _ => none
  | name :: rest, t =>
    if isPre name t then
      match braceGroupAt (t.drop name.length) with
      | some glen => some (name.length + glen)
      | none => tryCmdNames rest t
    else tryCmdNames rest t

/-- Pattern for `\\(label|ref|eqref|cite)\{[^\x7d]*\}`, deleted without
residue (script.js line 38). -/
def cmdPat (s : List Char) : Option (List Char × Nat) :=
  match s with
  | '\\' :: t => (tryCmdNames cmdNames t).map (fun n => ([], 1 + n))
  | _ => none

/-- The list-environment names of script.js lines 40-41. -/
def listNames : List (List Char) :=
  [['e', 'n', 'u', 'm', 'e', 'r', 'a', 't', 'e'],
    ['i', 't', 'e', 'm', 'i', 'z', 'e']]

/-- Try each list-environment name followed by a closing brace, returning the
length consumed (name plus closing brace). -/
def tryListName : List (List Char) → List Char → Option Nat
  | [], _ => none
  | name :: rest, t =>
    if isPre (name ++ ['\x7d']) t then some (name.length + 1)
    else tryListName rest t

/-- Pattern for `\\begin\{(enumerate|itemize)\}(\[[^\]]*\])?`, deleted
(script.js line 40). -/
def beginListPat (s : List Char) : Option (List Char × Nat) :=
  if isPre ['\\', 'b', 'e', 'g', 'i', 'n', '\x7b'] s then
    match tryListName listNames (s.drop 7) with
    | some nlen =>
      match s.drop (7 + nlen) with
      | '[' :: u =>
        match firstSubIdx [']'] u with
        | some i => some ([], 7 + nlen + 1 + i + 1)
        | none => some ([], 7 + nlen)
      | _ => some ([], 7 + nlen)
    | none => none
  else none

/-- Pattern for `\\end\{(enumerate|itemize)\}`, deleted (script.js
line 41). -/
def endListPat (s : List Char) : Option (List Char × Nat) :=
  if isPre ['\\', 'e', 'n', 'd', '\x7b'] s then
    match tryListName listNames (s.drop 5) with
    | some nlen => some ([], 5 + nlen)
    | none => none
  else none

/-- Pattern for `\\item\s*`, replaced by `<br>• ` (script.js line 42). -/
def itemPat (s : List Char) : Option (List Char × Nat) :=
  if isPre ['\\', 'i', 't', 'e', 'm'] s then
    some (['<', 'b', 'r', '>', '•', ' '], 5 + wsCount (s.drop 5))
  else none

/-- Pattern for `\s\x7b2,\x7d` (a run of two or more whitespace characters),
replaced by one space (script.js line 45). -/
def multiWsPat (s : List Char) : Option (List Char × Nat) :=
  match s with
  | c1 :: c2 :: _ =>
    if isJsWs c1 && isJsWs c2 then some ([' '], 2 + wsCount (s.drop 2))
    else none
  | _ => none

/-- Pattern for `<br\s*\/?>`, replaced by the sentinel (script.js
line 51). -/
def brTagPat (s : List Char) : Option (List Char × Nat) :=
  match s with
  | '<' :: 'b' :: 'r' :: t =>
    let k := wsCount t
    match t.drop k with
    | '/' :: '>' :: _ => some (SENTINEL, 3 + k + 2)
    | '>' :: _ => some (SENTINEL, 3 + k + 1)
    | _ => none
  | _ => none

/-- Pattern for the literal sentinel, restored to `<br>` markup (script.js
line 80). -/
def sentinelPat (s : List Char) : Option (List Char × Nat) :=
  if isPre SENTINEL s then some (['<', 'b', 'r', '>'], SENTINEL.length)
  else none

/-- The normalization steps of script.js lines 29-46, in source order:
convert `equation`/`align` environments to `\[...\]`, delete cross-reference
commands, strip list environments, turn `\item` into a line break plus
bullet, replace `~` by a space, collapse whitespace runs, and trim. -/
def normalizeLatex (s : List Char) : List Char :=
  jsTrim (scanAll multiWsPat (jsReplaceChar '~' ' ' (scanAll itemPat
    (scanAll endListPat (scanAll beginListPat
      (scanAll cmdPat (scanAll envPat s)))))))

/-- The full `processLatexForDisplay` of script.js lines 25-81 on a non-null
input string: normalize, protect `<br>` tags behind the sentinel,
split-and-escape, then turn sentinels back into literal `<br>` markup. -/
def processLatexForDisplay (s : List Char) : List Char :=
  scanAll sentinelPat (segmentEscape (scanAll brTagPat (normalizeLatex s)))

/-- Model of the JavaScript values handled by `parseCandidates` and
`JSON.parse`.  Numbers are modelled as rationals. -/
inductive JsVal where
  | jsNull : JsVal
  | jsBool : Bool → JsVal
  | jsNum : ℚ → JsVal
  | jsStr : List Char → JsVal
  | jsArr : List JsVal → JsVal
  | jsObj : List (List Char × JsVal) → JsVal

/-- JSON whitespace (the four characters allowed by the JSON grammar). -/
def isJsonWs (c : Char) : Bool :=
  c = ' ' || c = '\t' || c = '\n' || c = '\r'

/-- Drop leading JSON whitespace. -/
def skipJWs (s : List Char) : List Char := s.dropWhile isJsonWs

/-- Decimal digit test. -/
def isDigit (c : Char) : Bool := 48 ≤ c.toNat && c.toNat ≤ 57

/-- Numeric value of a digit string. -/
def digitsVal (l : List Char) : Nat :=
  l.foldl (fun a c => a * 10 + (c.toNat - 48)) 0

/-- Value of a fraction-digit string (the part after the decimal point). -/
def fracVal (l : List Char) : ℚ :=
  (digitsVal l : ℚ) / (10 : ℚ) ^ l.length

/-- Apply an optional exponent suffix (`[eE][+-]?digits`) to `base`,
requiring `rest` to be consumed exactly up to the returned remainder; used by
the JSON number parser.  Returns the value and the remainder. -/
def applyExp (base : ℚ) (rest : List Char) : ℚ × List Char :=
  match rest with
  | e :: t =>
    if e = 'e' || e = 'E' then
      match t with
      | '+' :: t2 =>
        let es := t2.takeWhile isDigit
        if es = [] then (base, rest)
        else (base * (10 : ℚ) ^ (digitsVal es), t2.drop es.length)
      | '-' :: t2 =>
        let es := t2.takeWhile isDigit
        if es = [] then (base, rest)
        else (base / (10 : ℚ) ^ (digitsVal es), t2.drop es.length)
      | _ =>
        let es := t.takeWhile isDigit
        if es = [] then (base, rest)
        else (base * (10 : ℚ) ^ (digitsVal es), t.drop es.length)
    else (base, rest)
  | [] => (base, rest)

/-- JSON number at the head of `s`: `-?(0|[1-9][0-9]*)(\.[0-9]+)?` with an
optional exponent.  Returns the value and the remainder. -/
def jparseNum (s : List Char) : Option (ℚ × List Char) :=
  let p := match s with
    | '-' :: t => (true, t)
    | _ => (false, s)
  let neg := p.1
  let s1 := p.2
  let ds := s1.takeWhile isDigit
  if ds = [] then none
  else if 1 < ds.length && ds.headI = '0' then none
  else
    let r1 := s1.drop ds.length
    let ip : ℚ := (digitsVal ds : ℚ)
    match r1 with
    | '.' :: t =>
      let fs := t.takeWhile isDigit
      if fs = [] then none
      else
        let q := applyExp (ip + fracVal fs) (t.drop fs.length)
        some (if neg then -q.1 else q.1, q.2)
    | _ =>
      let q := applyExp ip r1
      some (if neg then -q.1 else q.1, q.2)

/-- Hexadecimal digit value. -/
def hexVal (c : Char) : Option Nat :=
  if 48 ≤ c.toNat && c.toNat ≤ 57 then some (c.toNat - 48)
  else if 65 ≤ c.toNat && c.toNat ≤ 70 then some (c.toNat - 55)
  else if 97 ≤ c.toNat && c.toNat ≤ 102 then some (c.toNat - 87)
  else none

/-- JSON string body after the opening quote: contents and remainder after
the closing quote.  Unescaped control characters are rejected; the standard
escapes and `\uXXXX` are recognised. -/
def jparseStr : List Char → Option (List Char × List Char)
  | [] => none
  | '\x22' :: t => some ([], t)
  | '\\' :: 'u' :: h1 :: h2 :: h3 :: h4 :: t =>
    match hexVal h1, hexVal h2, hexVal h3, hexVal h4 with
    | some a, some b, some c, some d =>
      (jparseStr t).map (fun p =>
        (Char.ofNat (((a * 16 + b) * 16 + c) * 16 + d) :: p.1, p.2))
    | _, _, _, _ => none
  | '\\' :: e :: t =>
    let esc : Option Char :=
      if e = '\x22' then some '\x22'
      else if e = '\\' then some '\\'
      else if e = '/' then some '/'
      else if e = 'b' then some '\x08'
      else if e = 'f' then some '\x0c'
      else if e = 'n' then some '\n'
      else if e = 'r' then some '\r'
      else if e = 't' then some '\t'
      else none
    match esc with
    | some c => (jparseStr t).map (fun p => (c :: p.1, p.2))
    | none => none
  | c :: t =>
    if c.toNat < 32 then none
    else (jparseStr t).map (fun p => (c :: p.1, p.2))

/-- Comma-separated JSON array items up to the closing bracket, given a value
parser `pv`. -/
def jArrItems (pv : List Char → Option (JsVal × List Char)) :
    Nat → List Char → Option (List JsVal × List Char)
  | 0, _ => none
  | fuel + 1, s =>
    match pv s with
    | some (v, r) =>
      match skipJWs r with
      | ',' :: t => (jArrItems pv fuel (skipJWs t)).map (fun p => (v :: p.1, p.2))
      | ']' :: t => some ([v], t)
      | _ => none
    | none => none

/-- Comma-separated JSON object members up to the closing brace, given a
value parser `pv`. -/
def jObjItems (pv : List Char → Option (JsVal × List Char)) :
    Nat → List Char → Option (List (List Char × JsVal) × List Char)
  | 0, _ => none
  | fuel + 1, s =>
    match s with
    | '\x22' :: t =>
      match jparseStr t with
      | some (k, r) =>
        match skipJWs r with
        | ':' :: t2 =>
          match pv (skipJWs t2) with
          | some (v, r2) =>
            match skipJWs r2 with
            | ',' :: t3 =>
              (jObjItems pv fuel (skipJWs t3)).map (fun p => ((k, v) :: p.1, p.2))
            | '\x7d' :: t3 => some ([(k, v)], t3)
            | _ => none
          | none => none
        | _ => none
      | none => none
    | _ => none

/-- Fueled JSON value parser (JSON grammar, leading whitespace already
skipped). -/
def jparseV : Nat → List Char → Option (JsVal × List Char)
  | 0, _ => none
  | fuel + 1, s =>
    match s with
    | 'n' :: 'u' :: 'l' :: 'l' :: t => some (.jsNull, t)
    | 't' :: 'r' :: 'u' :: 'e' :: t => some (.jsBool true, t)
    | 'f' :: 'a' :: 'l' :: 's' :: 'e' :: t => some (.jsBool false, t)
    | '\x22' :: t => (jparseStr t).map (fun p => (.jsStr p.1, p.2))
    | '[' :: t =>
      match skipJWs t with
      | ']' :: r => some (.jsArr [], r)
      | u => (jArrItems (jparseV fuel) fuel u).map (fun p => (.jsArr p.1, p.2))
    | '\x7b' :: t =>
      match skipJWs t with
      | '\x7d' :: r => some (.jsObj [], r)
      | u => (jObjItems (jparseV fuel) fuel u).map (fun p => (.jsObj p.1, p.2))
    | _ => (jparseNum s).map (fun p => (.jsNum p.1, p.2))

/-- Model of the platform `JSON.parse` (strict JSON grammar): parse one value
with surrounding whitespace, requiring the whole string to be consumed. -/
def jsonParse (s : List Char) : Option JsVal :=
  match jparseV (s.length + 1) (skipJWs s) with
  | some (v, r) => if skipJWs r = [] then some v else none
  | none => none

/-- Fueled driver for a global replace whose pattern also sees the previous
source character (needed for the `\b` word-boundary checks).  After a match
the context becomes the last consumed character, exactly as the JS engine
resumes after `lastIndex`. -/
def scanCtxF (pat : Option Char → List Char → Option (List Char × Nat)) :
    Nat → Option Char → List Char → List Char
  | _, _, [] => []
  | 0, _, l => l
  | fuel + 1, prev, c :: cs =>
    match pat prev (c :: cs) with
    | some (r, n) =>
      r ++ scanCtxF pat fuel
        (((c :: cs).take (max n 1)).getLast?) ((c :: cs).drop (max n 1))
    | none => c :: scanCtxF pat fuel (some c) cs

/-- Global context-aware replace over a whole string. -/
def scanCtxAll (pat : Option Char → List Char → Option (List Char × Nat))
    (s : List Char) : List Char :=
  scanCtxF pat (s.length + 1) none s

/-- JavaScript word character (`\w`), as used by the `\b` boundary. -/
def isWordChar (c : Char) : Bool :=
  (65 ≤ c.toNat && c.toNat ≤ 90) || (97 ≤ c.toNat && c.toNat ≤ 122) ||
  (48 ≤ c.toNat && c.toNat ≤ 57) || c = '_'

/-- Pattern for `\bW\b` for a word `w`, replaced by `r` (the
`None`/`True`/`False` rewrites of script.js line 95). -/
def wordPat (w r : List Char) (prev : Option Char) (s : List Char) :
    Option (List Char × Nat) :=
  if isPre w s then
    let okL := match prev with
      | none => true
      | some p => ¬ isWordChar p
    let okR := match s.drop w.length with
      | [] => true
      | c :: _ => ¬ isWordChar c
    if okL && okR then some (r, w.length) else none
  else none

/-- The Python-literal rewrites of script.js line 95: `None` to `null`,
`True` to `true`, `False` to `false`, each at word boundaries. -/
def pyLitRewrite (s : List Char) : List Char :=
  scanCtxAll (wordPat ['F', 'a', 'l', 's', 'e'] ['f', 'a', 'l', 's', 'e'])
    (scanCtxAll (wordPat ['T', 'r', 'u', 'e'] ['t', 'r', 'u', 'e'])
      (scanCtxAll (wordPat ['N', 'o', 'n', 'e'] ['n', 'u', 'l', 'l']) s))

/-- Hexadecimal digit character. -/
def hexChar (n : Nat) : Char :=
  if n < 10 then Char.ofNat (48 + n) else Char.ofNat (87 + n)

/-- Image of one character under `JSON.stringify` string quoting. -/
def jsonQuoteChar (c : Char) : List Char :=
  if c = '\x22' then ['\\', '\x22']
  else if c = '\\' then ['\\', '\\']
  else if c = '\x08' then ['\\', 'b']
  else if c = '\x0c' then ['\\', 'f']
  else if c = '\n' then ['\\', 'n']
  else if c = '\r' then ['\\', 'r']
  else if c = '\t' then ['\\', 't']
  else if c.toNat < 32 then
    ['\\', 'u', '0', '0', hexChar (c.toNat / 16), hexChar (c.toNat % 16)]
  else [c]

/-- Concatenated character images. -/
def concatMapChars (f : Char → List Char) : List Char → List Char
  | [] => []
  | c :: cs => f c ++ concatMapChars f cs

/-- Model of `JSON.stringify` on a string value. -/
def jsonQuote (l : List Char) : List Char :=
  '\x22' :: concatMapChars jsonQuoteChar l ++ ['\x22']

/-- Scan a single-quoted token body `[^\x27\n]*?` up to the closing single
quote: contents and remainder after the quote. -/
def scanSq : List Char → Option (List Char × List Char)
  | [] => none
  | '\x27' :: t => some ([], t)
  | '\n' :: _ => none
  | c :: t => (scanSq t).map (fun p => (c :: p.1, p.2))

/-- Pattern for `([\x7b,]\s*)'([^'\n]*?)'\s*:` replaced by `$1"$2":`
(single-quoted object keys, script.js line 96). -/
def keyPat (s : List Char) : Option (List Char × Nat) :=
  match s with
  | c :: t =>
    if c = '\x7b' || c = ',' then
      let k := wsCount t
      match t.drop k with
      | '\x27' :: u =>
        match scanSq u with
        | some (key, rest1) =>
          let k2 := wsCount rest1
          match rest1.drop k2 with
          | ':' :: _ =>
            some (c :: t.take k ++ '\x22' :: key ++ ['\x22', ':'],
              1 + k + 1 + key.length + 1 + k2 + 1)
          | _ => none
        | none => none
      | _ => none
    else none
  | [] => none

/-- Pattern for `:\s*'([^'\n]*?)'(\s*[\x7d,])` replaced by
`: ` + stringified value + tail (single-quoted object values, script.js
line 97). -/
def valPat (s : List Char) : Option (List Char × Nat) :=
  match s with
  | ':' :: t =>
    let k := wsCount t
    match t.drop k with
    | '\x27' :: u =>
      match scanSq u with
      | some (val, rest1) =>
        let k2 := wsCount rest1
        match rest1.drop k2 with
        | c2 :: _ =>
          if c2 = '\x7d' || c2 = ',' then
            some (':' :: ' ' :: jsonQuote val ++ rest1.take k2 ++ [c2],
              1 + k + 1 + val.length + 1 + k2 + 1)
          else none
        | [] => none
      | none => none
    | _ => none
  | _ => none

/-- Shared body of the bare-sequence-element rewrite: after the lead, skip
whitespace, read a single-quoted token, skip whitespace, and require a
lookahead `,` or `]` (not consumed). -/
def elemCore (lead : List Char) (t : List Char) : Option (List Char × Nat) :=
  let k := wsCount t
  match t.drop k with
  | '\x27' :: u =>
    match scanSq u with
    | some (val, rest1) =>
      let k3 := wsCount rest1
      match rest1.drop k3 with
      | c3 :: _ =>
        if c3 = ',' || c3 = ']' then
          some (lead ++ jsonQuote val, lead.length + k + 1 + val.length + 1 + k3)
        else none
      | [] => none
    | none => none
  | _ => none

/-- Pattern for `(\[|\s,)\s*'([^'\n]*?)'\s*(?=(,|\]))` replaced by the lead
plus the stringified value (single-quoted bare sequence elements, script.js
line 98). -/
def elemPat (s : List Char) : Option (List Char × Nat) :=
  match s with
  | '[' :: t => elemCore ['['] t
  | c1 :: ',' :: t => if isJsWs c1 then elemCore [c1, ','] t else none
  | _ => none

/-- The lenient near-JSON rewrite of script.js lines 95-98: Python literals,
then single-quoted keys, values and bare elements. -/
def lenientRewrite (s : List Char) : List Char :=
  scanAll elemPat (scanAll valPat (scanAll keyPat (pyLitRewrite s)))

/-- One character of the allow-list guarding the last-resort evaluation
(script.js line 103): whitespace, brackets, braces, colon, comma, digits,
sign/exponent and dot, ASCII letters, quotes, the general-punctuation block
U+2010 to U+206F, tab/LF/CR/space, ampersand, semicolon, parentheses and
underscore. -/
def guardChar (c : Char) : Bool :=
  isJsWs c || c = '[' || c = ']' || c = '\x7b' || c = '\x7d' || c = ':' ||
  c = ',' || (48 ≤ c.toNat && c.toNat ≤ 57) || c = '.' || c = '-' || c = '+' ||
  (65 ≤ c.toNat && c.toNat ≤ 90) || (97 ≤ c.toNat && c.toNat ≤ 122) ||
  c = '\x22' || c = '\x27' || (0x2010 ≤ c.toNat && c.toNat ≤ 0x206F) ||
  c.toNat = 9 || c.toNat = 10 || c.toNat = 13 || c.toNat = 32 ||
  c = '&' || c = ';' || c = '(' || c = ')' || c = '_'

/-- The whole-string allow-list test `^[...]*$` of script.js line 103. -/
def guardOk (s : List Char) : Bool := s.all guardChar

/-- Raw `predicted_candidates` input to `parseCandidates`: an already
structured array, null/undefined, a string, or any other value. -/
inductive RawCand where
  | rcArr : List JsVal → RawCand
  | rcNull : RawCand
  | rcStr : List Char → RawCand
  | rcOther : RawCand

/-- The tolerant candidate-list parser of script.js lines 87-110.  The third,
guarded stage hands the text to the JavaScript `Function` constructor — an
unrestricted evaluator beyond any shallow string model — so that evaluator is
a parameter `ev`, with `none` modelling a thrown exception. -/
def parseCandidates (ev : List Char → Option JsVal) : RawCand → JsVal
  | .rcArr xs => .jsArr xs
  | .rcNull => .jsArr []
  | .rcOther => .jsArr []
  | .rcStr s =>
    let text := jsTrim s
    if text = [] then .jsArr []
    else
      match jsonParse text with
      | some v => v
      | none =>
        match jsonParse (lenientRewrite text) with
        | some v => v
        | none =>
          if guardOk text then
            match ev text with
            | some v => v
            | none => .jsArr []
          else .jsArr []

/-- Input values of `formatConfidence`: a number or a string (the shapes the
candidate renderer passes). -/
inductive ConfVal where
  | cvNum : ℚ → ConfVal
  | cvStr : List Char → ConfVal

/-- Apply a whole-string exponent suffix for `Number(string)` coercion:
empty remainder, or `[eE][+-]?digits` consuming everything. -/
def numExpTail (base : ℚ) (rest : List Char) : Option ℚ :=
  match rest with
  | [] => some base
  | e :: t =>
    if e = 'e' || e = 'E' then
      let p := match t with
        | '+' :: t2 => (false, t2)
        | '-' :: t2 => (true, t2)
        | _ => (false, t)
      let es := p.2.takeWhile isDigit
      if es = [] ∨ p.2.drop es.length ≠ [] then none
      else if p.1 then some (base / (10 : ℚ) ^ digitsVal es)
      else some (base * (10 : ℚ) ^ digitsVal es)
    else none

/-- Model of JavaScript `Number(string)` on the relevant forms: after
trimming, the empty string is 0; otherwise an optionally signed decimal
literal (digits, optional fraction, optional exponent; a leading or trailing
bare dot is allowed as in JS).  Anything else — including `Infinity`, which
also fails the `isFinite` test in the caller — is `none` (not finite). -/
def jsStringToNum (s : List Char) : Option ℚ :=
  let t := jsTrim s
  if t = [] then some 0
  else
    let p := match t with
      | '-' :: u => (true, u)
      | '+' :: u => (false, u)
      | _ => (false, t)
    let neg := p.1
    let s1 := p.2
    let ds := s1.takeWhile isDigit
    let r1 := s1.drop ds.length
    let core : Option ℚ :=
      match r1 with
      | '.' :: t2 =>
        let fs := t2.takeWhile isDigit
        if ds = [] ∧ fs = [] then none
        else numExpTail ((digitsVal ds : ℚ) + fracVal fs) (t2.drop fs.length)
      | _ =>
        if ds = [] then none
        else numExpTail (digitsVal ds : ℚ) r1
    core.map (fun q => if neg then -q else q)

/-- JavaScript number-to-number coercion of the modelled inputs. -/
def toNumber : ConfVal → Option ℚ
  | .cvNum q => some q
  | .cvStr s => jsStringToNum s

/-- Digit character. -/
def digitChar (n : Nat) : Char := Char.ofNat (48 + n)

/-- Decimal digits of a natural number (fueled). -/
def natDigitsF : Nat → Nat → List Char
  | 0, _ => []
  | f + 1, n =>
    if n < 10 then [digitChar n]
    else natDigitsF f (n / 10) ++ [digitChar (n % 10)]

/-- Decimal digits of a natural number. -/
def natToDigits (n : Nat) : List Char := natDigitsF (n + 1) n

/-- Decimal representation of an integer. -/
def intToDigits (i : Int) : List Char :=
  if i < 0 then '-' :: natToDigits i.natAbs else natToDigits i.natAbs

/-- Computable floor of a rational (equal to `Int.floor`, proved below;
kept as a plain division of the numerator by the denominator so concrete
values evaluate inside the kernel). -/
def ratFloor (q : ℚ) : ℤ := q.num / q.den

/-- Computable absolute value of a rational. -/
def ratAbs (q : ℚ) : ℚ := if q < 0 then -q else q

/-- Fractional digits of a rational in `[0, 1)` (fueled; terminates exactly
for the decimal-representable values produced by number coercion). -/
def fracDigitsF : Nat → ℚ → List Char
  | 0, _ => []
  | f + 1, q =>
    if q = 0 then []
    else
      let q10 := q * 10
      digitChar (ratFloor q10).toNat :: fracDigitsF f (q10 - (ratFloor q10 : ℚ))

/-- Model of JavaScript number-to-string conversion on the modelled values:
integers print as plain digit strings, other decimal-representable rationals
with a decimal point. -/
def jsNumToString (q : ℚ) : List Char :=
  let sign : List Char := if q < 0 then ['-'] else []
  let a := ratAbs q
  let ipart := (ratFloor a).toNat
  let fpart := a - (ratFloor a : ℚ)
  if fpart = 0 then sign ++ natToDigits ipart
  else sign ++ natToDigits ipart ++ '.' :: fracDigitsF 64 fpart

/-- JavaScript `String(c)` on the modelled inputs. -/
def confToString : ConfVal → List Char
  | .cvNum q => jsNumToString q
  | .cvStr s => s

/-- `formatConfidence` of script.js lines 113-117: coerce to a number; if not
finite, stringify the original; if at most 1, render as a rounded percentage
(`Math.round` rounds half toward positive infinity); otherwise stringify the
number. -/
def formatConfidence (c : ConfVal) : List Char :=
  match toNumber c with
  | none => confToString c
  | some q =>
    if q ≤ 1 then intToDigits (ratFloor (q * 100 + 1 / 2)) ++ ['%']
    else jsNumToString q

/-- Every ampersand in the string begins one of the five entities written by
`escapeHTML` (so no "literal"/raw ampersand occurs). -/
def ampEntityOk : List Char → Bool
  | [] => true
  | c :: cs =>
    (if c = '&' then
      isPre ['a', 'm', 'p', ';'] cs || isPre ['l', 't', ';'] cs ||
      isPre ['g', 't', ';'] cs || isPre ['q', 'u', 'o', 't', ';'] cs ||
      isPre ['#', '3', '9', ';'] cs
     else true) && ampEntityOk cs

theorem isPre_refl_append (l t : List Char) : isPre l (l ++ t) = true := by
  induction l with
  | nil => rfl
  | cons a as ih => simp [isPre, ih]

theorem scanF_id (pat : List Char → Option (List Char × Nat)) :
    ∀ (fuel : Nat) (s : List Char),
      (∀ i, pat (s.drop i) = none) → scanF pat fuel s = s := by
  intro fuel
  induction fuel with
  | zero => intro s _; cases s <;> rfl
  | succ n ih =>
    intro s h
    cases s with
    | nil => rfl
    | cons c cs =>
      have h0 := h 0
      simp only [List.drop_zero] at h0
      simp only [scanF, h0]
      have := ih cs (fun i => by
        have := h (i + 1)
        simpa using this)
      rw [this]

theorem hasSub_false_isPre {pat s : List Char} (h : hasSub pat s = false) :
    ∀ i, isPre pat (s.drop i) = false := by
  induction s with
  | nil =>
    intro i
    simp only [hasSub, decide_eq_false_iff_not] at h
    cases pat with
    | nil => exact absurd rfl h
    | cons a as => simp [List.drop_nil, isPre]
  | cons c cs ih =>
    intro i
    simp only [hasSub, Bool.or_eq_false_iff] at h
    cases i with
    | zero => exact h.1
    | succ j => exact ih h.2 j

theorem scanF_unesc_amp (f : Nat) (E : List Char) :
    scanF unescPat (f + 1) ('&' :: 'a' :: 'm' :: 'p' :: ';' :: E) =
      '&' :: scanF unescPat f E := rfl

theorem scanF_unesc_lt (f : Nat) (E : List Char) :
    scanF unescPat (f + 1) ('&' :: 'l' :: 't' :: ';' :: E) =
      '<' :: scanF unescPat f E := rfl

theorem scanF_unesc_gt (f : Nat) (E : List Char) :
    scanF unescPat (f + 1) ('&' :: 'g' :: 't' :: ';' :: E) =
      '>' :: scanF unescPat f E := rfl

theorem scanF_unesc_quot (f : Nat) (E : List Char) :
    scanF unescPat (f + 1) ('&' :: 'q' :: 'u' :: 'o' :: 't' :: ';' :: E) =
      '\x22' :: scanF unescPat f E := rfl

theorem scanF_unesc_apos (f : Nat) (E : List Char) :
    scanF unescPat (f + 1) ('&' :: '#' :: '3' :: '9' :: ';' :: E) =
      '\x27' :: scanF unescPat f E := rfl

theorem scanF_unesc_other (f : Nat) (c : Char) (E : List Char) (h1 : ¬ ('&' = c)) :
    scanF unescPat (f + 1) (c :: E) = c :: scanF unescPat f E := by
  have hpat : unescPat (c :: E) = none := by
    simp [unescPat, isPre, h1]
  simp [scanF, hpat]

/-- Round-trip: the inverse entity substitution undoes `escapeHTML` exactly. -/
theorem unescape_escape (s : List Char) : unescapeHTML (escapeHTML s) = s := by
  have key : ∀ (s : List Char) (fuel : Nat), (escapeHTML s).length ≤ fuel →
      scanF unescPat fuel (escapeHTML s) = s := by
    intro s
    induction s with
    | nil => intro fuel _; cases fuel <;> rfl
    | cons c cs ih =>
      intro fuel hf
      have hlen : (escapeHTML (c :: cs)).length =
          (escChar c).length + (escapeHTML cs).length := by
        simp [escapeHTML]
      by_cases h1 : c = '&'
      · subst h1
        obtain ⟨f, rfl⟩ : ∃ f, fuel = f + 1 := by
          cases fuel with
          | zero => simp [escChar] at hlen; omega
          | succ f => exact ⟨f, rfl⟩
        show scanF unescPat (f + 1)
            ('&' :: 'a' :: 'm' :: 'p' :: ';' :: escapeHTML cs) = _
        rw [scanF_unesc_amp, ih f (by simp [escChar] at hlen; omega)]
      · by_cases h2 : c = '<'
        · subst h2
          obtain ⟨f, rfl⟩ : ∃ f, fuel = f + 1 := by
            cases fuel with
            | zero => simp [escChar] at hlen; omega
            | succ f => exact ⟨f, rfl⟩
          show scanF unescPat (f + 1)
              ('&' :: 'l' :: 't' :: ';' :: escapeHTML cs) = _
          rw [scanF_unesc_lt, ih f (by simp [escChar] at hlen; omega)]
        · by_cases h3 : c = '>'
          · subst h3
            obtain ⟨f, rfl⟩ : ∃ f, fuel = f + 1 := by
              cases fuel with
              | zero => simp [escChar] at hlen; omega
              | succ f => exact ⟨f, rfl⟩
            show scanF unescPat (f + 1)
                ('&' :: 'g' :: 't' :: ';' :: escapeHTML cs) = _
            rw [scanF_unesc_gt, ih f (by simp [escChar] at hlen; omega)]
          · by_cases h4 : c = '\x22'
            · subst h4
              obtain ⟨f, rfl⟩ : ∃ f, fuel = f + 1 := by
                cases fuel with
                | zero => simp [escChar] at hlen; omega
                | succ f => exact ⟨f, rfl⟩
              show scanF unescPat (f + 1)
                  ('&' :: 'q' :: 'u' :: 'o' :: 't' :: ';' :: escapeHTML cs) = _
              rw [scanF_unesc_quot, ih f (by simp [escChar] at hlen; omega)]
            · by_cases h5 : c = '\x27'
              · subst h5
                obtain ⟨f, rfl⟩ : ∃ f, fuel = f + 1 := by
                  cases fuel with
                  | zero => simp [escChar] at hlen; omega
                  | succ f => exact ⟨f, rfl⟩
                show scanF unescPat (f + 1)
                    ('&' :: '#' :: '3' :: '9' :: ';' :: escapeHTML cs) = _
                rw [scanF_unesc_apos, ih f (by simp [escChar] at hlen; omega)]
              · have hc : escChar c = [c] := by
                  simp [escChar, h1, h2, h3, h4, h5]
                obtain ⟨f, rfl⟩ : ∃ f, fuel = f + 1 := by
                  cases fuel with
                  | zero => simp [hc] at hlen; omega
                  | succ f => exact ⟨f, rfl⟩
                have : escapeHTML (c :: cs) = c :: escapeHTML cs := by
                  simp [escapeHTML, hc]
                rw [this, scanF_unesc_other f c _ (fun h => h1 h.symm),
                  ih f (by simp [hc] at hlen; omega)]
  simpa [unescapeHTML, scanAll] using
    key s ((escapeHTML s).length + 1) (by omega)

theorem tryMathAt_pos {s : List Char} {n : Nat} (h : tryMathAt s = some n) :
    1 ≤ n := by
  unfold tryMathAt at h
  split at h
  · rw [Option.map_eq_some'] at h
    obtain ⟨i, -, rfl⟩ := h
    omega
  · rw [Option.map_eq_some'] at h
    obtain ⟨i, -, rfl⟩ := h
    omega
  · split at h
    · obtain rfl : _ + 4 = n := Option.some.inj h
      omega
    · obtain rfl : 2 = n := Option.some.inj h
      omega
  · rw [Option.map_eq_some'] at h
    obtain ⟨i, -, rfl⟩ := h
    omega
  · exact absurd h (by simp)

theorem findMath_decomp {s g m r : List Char}
    (h : findMath s = some (g, m, r)) :
    g ++ m ++ r = s ∧ r.length < s.length := by
  induction s generalizing g m r with
  | nil => exact absurd h (by simp [findMath])
  | cons c cs ih =>
    unfold findMath at h
    cases htry : tryMathAt (c :: cs) with
    | some n =>
      rw [htry] at h
      have hn := tryMathAt_pos htry
      obtain ⟨rfl, rfl, rfl⟩ : g = [] ∧ (c :: cs).take n = m ∧ (c :: cs).drop n = r := by
        simpa [eq_comm] using h
      refine ⟨by simp, ?_⟩
      simp only [List.length_drop, List.length_cons]
      omega
    | none =>
      rw [htry] at h
      simp only [Option.map_eq_some'] at h
      obtain ⟨⟨g', m', r'⟩, hx, hy⟩ := h
      obtain ⟨rfl, rfl, rfl⟩ : c :: g' = g ∧ m' = m ∧ r' = r := by
        simpa [eq_comm] using hy
      obtain ⟨hj, hl⟩ := ih hx
      constructor
      · simpa using hj
      · simp only [List.length_cons]; omega

@[simp] theorem segJoin_nil : segJoin [] = [] := rfl

@[simp] theorem segJoin_cons (p : Bool × List Char) (L : List (Bool × List Char)) :
    segJoin (p :: L) = p.2 ++ segJoin L := rfl

@[simp] theorem segRender_nil : segRender [] = [] := rfl

@[simp] theorem segRender_cons (p : Bool × List Char) (L : List (Bool × List Char)) :
    segRender (p :: L) =
      (if p.1 then repairMath p.2 else escapeHTML p.2) ++ segRender L := rfl

theorem segJoin_segViewF :
    ∀ (fuel : Nat) (s : List Char), s.length ≤ fuel →
      segJoin (segViewF fuel s) = s := by
  intro fuel
  induction fuel with
  | zero =>
    intro s hs
    have : s = [] := by cases s <;> simp_all
    subst this; rfl
  | succ f ih =>
    intro s hs
    show segJoin (segViewF (f + 1) s) = s
    unfold segViewF
    cases hfm : findMath s with
    | none =>
      by_cases hse : s = [] <;> simp [hse, segJoin]
    | some x =>
      obtain ⟨g, m, r⟩ := x
      obtain ⟨hj, hl⟩ := findMath_decomp hfm
      have hr := ih r (by omega)
      by_cases hg : g = []
      · subst hg
        simpa [hr] using hj
      · simpa [if_neg hg, hr, List.append_assoc] using hj

/-- Concatenating the contents of all spans reconstructs the input exactly. -/
theorem segJoin_segView (s : List Char) : segJoin (segView s) = s :=
  segJoin_segViewF (s.length + 1) s (by omega)

theorem segEscF_eq_render :
    ∀ (fuel : Nat) (s : List Char), s.length ≤ fuel →
      segEscF fuel s = segRender (segViewF fuel s) := by
  intro fuel
  induction fuel with
  | zero =>
    intro s hs
    have : s = [] := by cases s <;> simp_all
    subst this; rfl
  | succ f ih =>
    intro s hs
    show segEscF (f + 1) s = segRender (segViewF (f + 1) s)
    unfold segEscF segViewF
    cases hfm : findMath s with
    | none =>
      by_cases hse : s = [] <;> simp [hse, segRender, escapeHTML]
    | some x =>
      obtain ⟨g, m, r⟩ := x
      obtain ⟨hj, hl⟩ := findMath_decomp hfm
      have hr := ih r (by omega)
      by_cases hg : g = []
      · subst hg
        simp [hr, escapeHTML]
      · simp [if_neg hg, hr]

/-- The rendered output is exactly the per-span rendering of the segment
view. -/
theorem segmentEscape_eq_render (s : List Char) :
    segmentEscape s = segRender (segView s) :=
  segEscF_eq_render (s.length + 1) s (by omega)

/-- When no math delimiter pair matches anywhere, the whole string is escaped
as one plain segment. -/
theorem segmentEscape_of_no_math {s : List Char} (h : findMath s = none) :
    segmentEscape s = escapeHTML s := by
  show segEscF (s.length + 1) s = escapeHTML s
  unfold segEscF
  rw [h]

theorem escChar_mem {a c : Char} (h : c ∈ escChar a) :
    c ≠ '<' ∧ c ≠ '>' ∧ c ≠ '\x22' ∧ c ≠ '\x27' := by
  unfold escChar at h
  split_ifs at h with h1 h2 h3 h4 h5 <;>
    first
      | (simp only [List.mem_cons, List.not_mem_nil, or_false] at h
         rcases h with rfl | rfl | rfl | rfl | rfl | rfl <;> refine ⟨?_, ?_, ?_, ?_⟩ <;> decide)
      | (simp only [List.mem_singleton] at h
         subst h
         exact ⟨h2, h3, h4, h5⟩)

/-- Escaped plain text contains no literal angle bracket or quote
characters. -/
theorem escapeHTML_mem {s : List Char} {c : Char} (h : c ∈ escapeHTML s) :
    c ≠ '<' ∧ c ≠ '>' ∧ c ≠ '\x22' ∧ c ≠ '\x27' := by
  induction s with
  | nil => simp [escapeHTML] at h
  | cons a as ih =>
    simp only [escapeHTML, List.mem_append] at h
    rcases h with h | h
    · exact escChar_mem h
    · exact ih h

/-- The computable floor agrees with the mathematical floor. -/
theorem ratFloor_eq_floor (q : ℚ) : ratFloor q = ⌊q⌋ := Rat.floor_def.symm

theorem jsReplaceChar_self (c : Char) (s : List Char) :
    jsReplaceChar c c s = s := by
  induction s with
  | nil => rfl
  | cons a as ih =>
    simp only [jsReplaceChar, List.map_cons] at ih ⊢
    rw [ih]
    by_cases h : a = c
    · rw [if_pos h, h]
    · rw [if_neg h]

/-- A math span containing no occurrence of `\hspace` passes through
`repairMath` unchanged. -/
theorem repairMath_id {m : List Char}
    (h : hasSub ['\\', 'h', 's', 'p', 'a', 'c', 'e'] m = false) :
    repairMath m = m := by
  have hdrop := hasSub_false_isPre h
  have h1 : scanAll emptyHspacePat m = m :=
    scanF_id _ _ _ (fun i => by simp [emptyHspacePat, hdrop i])
  have h2 : scanAll bareHspacePat m = m :=
    scanF_id _ _ _ (fun i => by simp [bareHspacePat, hdrop i])
  simp [repairMath, h1, h2, jsReplaceChar_self]

theorem ampEntityOk_cons_ne {c : Char} (h : ¬ (c = '&')) (cs : List Char) :
    ampEntityOk (c :: cs) = ampEntityOk cs := by
  simp [ampEntityOk, h]

/-- Every ampersand written by `escapeHTML` begins an entity. -/
theorem escapeHTML_ampEntityOk (s : List Char) :
    ampEntityOk (escapeHTML s) = true := by
  induction s with
  | nil => rfl
  | cons a as ih =>
    show ampEntityOk (escChar a ++ escapeHTML as) = true
    by_cases h1 : a = '&'
    · subst h1
      simp [escChar, ampEntityOk, isPre, ih]
    · by_cases h2 : a = '<'
      · subst h2
        simp [escChar, ampEntityOk, isPre, ih]
      · by_cases h3 : a = '>'
        · subst h3
          simp [escChar, ampEntityOk, isPre, ih]
        · by_cases h4 : a = '\x22'
          · subst h4
            simp [escChar, ampEntityOk, isPre, ih]
          · by_cases h5 : a = '\x27'
            · subst h5
              simp [escChar, ampEntityOk, isPre, ih]
            · have hc : escChar a = [a] := by simp [escChar, h1, h2, h3, h4, h5]
              rw [hc]
              simpa [ampEntityOk_cons_ne h1] using ih

theorem escChar_length_pos (c : Char) : 1 ≤ (escChar c).length := by
  unfold escChar
  split_ifs <;> simp

/-- Escaping never shortens a string. -/
theorem escapeHTML_length (s : List Char) :
    s.length ≤ (escapeHTML s).length := by
  induction s with
  | nil => simp [escapeHTML]
  | cons a as ih =>
    have := escChar_length_pos a
    simp only [escapeHTML, List.length_append, List.length_cons]
    omega

/-- C1: the claim (and the spec) says every literal `<` and `>` inside a
matched math span is replaced by its HTML entity form.  The replaces on
script.js lines 70-71 substitute each of those characters for itself, so the
math span of `$a<b$` reaches the output with its raw `<` intact: the result
is `$a<b$`, not `$a&lt;b$` — the code contradicts its own comment
("protect HTML-sensitive chars") and the spec. -/
theorem claimC1_eval :
    processLatexForDisplay ("$a<b$".toList) = "$a<b$".toList ∧
    '<' ∈ processLatexForDisplay ("$a<b$".toList) := by
  exact ⟨rfl, by decide⟩

/-- C2 (counterexample): the claim says every character of the input outside
a matched math span is HTML-escaped.  The plain-text input `<br>` is matched
by the line-51 protection regex, replaced by the sentinel, and restored as
literal `<br>` markup, so its `<` is never escaped. -/
theorem claimC2_counterexample :
    processLatexForDisplay ("<br>".toList) = "<br>".toList ∧
    '<' ∈ processLatexForDisplay ("<br>".toList) := by
  exact ⟨rfl, by decide⟩

/-- C2 (amended): at the segmentation stage every character outside a matched
math span is HTML-escaped — when no delimiter pair matches, the entire string
is escaped as one plain segment, and escaped text contains no literal angle
brackets — and the markup example holds: `<b>evil</b>` outside math renders
as the escaped text `&lt;b&gt;evil&lt;/b&gt;`.  The sole exception, forced by
the counterexample, is that `<br\s*\/?>` tags (and sentinel occurrences) in
the raw input re-emerge as literal `<br>` markup after sentinel
restoration. -/
theorem claimC2_amended :
    (∀ s : List Char, findMath s = none → segmentEscape s = escapeHTML s) ∧
    (∀ (s : List Char) (c : Char), c ∈ escapeHTML s → c ≠ '<' ∧ c ≠ '>') ∧
    processLatexForDisplay ("<b>evil</b>".toList) =
      "&lt;b&gt;evil&lt;/b&gt;".toList := by
  refine ⟨fun s h => segmentEscape_of_no_math h, fun s c h => ?_, rfl⟩
  exact ⟨(escapeHTML_mem h).1, (escapeHTML_mem h).2.1⟩

/-- C2 (witness): the amended theorem applied at a concrete input with no
math match. -/
theorem claimC2_witness :
    segmentEscape ("ab".toList) = escapeHTML ("ab".toList) :=
  claimC2_amended.1 ("ab".toList) (by decide)

/-- C3 (counterexample): the claim says raw input containing the sentinel
string yields no unescaped markup.  The sentinel is the fixed string
`__BR_SENTINEL__`, which user content can contain; it passes through escaping
untouched and is restored as live `<br>` markup. -/
theorem claimC3_counterexample :
    processLatexForDisplay ("__BR_SENTINEL__".toList) = "<br>".toList ∧
    '<' ∈ processLatexForDisplay ("__BR_SENTINEL__".toList) := by
  exact ⟨rfl, by decide⟩

/-- C3 (amended): line breaks injected by the `\item` rewrite do appear as
literal `<br>` markup; but the sentinel can collide with user content — raw
input containing a literal `<br\s*\/?>` tag, or the sentinel string itself,
also yields literal `<br>` markup in the output. -/
theorem claimC3_amended :
    processLatexForDisplay ("\\item x".toList) = "<br>• x".toList ∧
    processLatexForDisplay ("a<br/>b".toList) = "a<br>b".toList ∧
    processLatexForDisplay ("x__BR_SENTINEL__y".toList) = "x<br>y".toList := by
  exact ⟨rfl, rfl, rfl⟩

/-- C4 (counterexample): the claim says globally undoing the HTML escaping on
the concatenated segmenter output reconstructs the normalized input modulo
the math repairs.  The normalized input `$&amp;$` is a single math span,
passed through unchanged (no repair applies), yet the inverse entity
substitution turns it into `$&$`. -/
theorem claimC4_counterexample :
    normalizeLatex ("$&amp;$".toList) = "$&amp;$".toList ∧
    segmentEscape ("$&amp;$".toList) = "$&amp;$".toList ∧
    repairMath ("$&amp;$".toList) = "$&amp;$".toList ∧
    unescapeHTML ("$&amp;$".toList) = "$&$".toList := by
  exact ⟨rfl, rfl, rfl, rfl⟩

/-- C4 (amended): concatenating the raw contents of the segmenter's spans
reconstructs the normalized input exactly; the rendered output is exactly the
per-span rendering (plain spans escaped, math spans repaired); and undoing
the escaping recovers each plain span exactly.  The global unescape round
trip of the claim holds only when math spans contain no entity-shaped text,
as the counterexample shows. -/
theorem claimC4_amended :
    (∀ s : List Char, segJoin (segView s) = s) ∧
    (∀ s : List Char, segmentEscape s = segRender (segView s)) ∧
    (∀ t : List Char, unescapeHTML (escapeHTML t) = t) :=
  ⟨segJoin_segView, segmentEscape_eq_render, unescape_escape⟩

/-- C5: `escapeHTML` writes no literal `<`, `>`, quote or apostrophe; every
ampersand it writes begins an entity; the inverse entity substitution
round-trips to the input; the length never decreases; each of the five
special characters maps to its named entity and every other character is
unchanged. -/
theorem claimC5 :
    (∀ (s : List Char) (c : Char), c ∈ escapeHTML s →
      c ≠ '<' ∧ c ≠ '>' ∧ c ≠ '\x22' ∧ c ≠ '\x27') ∧
    (∀ s : List Char, ampEntityOk (escapeHTML s) = true) ∧
    (∀ s : List Char, unescapeHTML (escapeHTML s) = s) ∧
    (∀ s : List Char, s.length ≤ (escapeHTML s).length) ∧
    escapeHTML ['&'] = "&amp;".toList ∧
    escapeHTML ['<'] = "&lt;".toList ∧
    escapeHTML ['>'] = "&gt;".toList ∧
    escapeHTML ['\x22'] = "&quot;".toList ∧
    escapeHTML ['\x27'] = "&#39;".toList ∧
    (∀ c : Char, c ≠ '&' → c ≠ '<' → c ≠ '>' → c ≠ '\x22' → c ≠ '\x27' →
      escapeHTML [c] = [c]) := by
  refine ⟨fun s c h => escapeHTML_mem h, escapeHTML_ampEntityOk,
    unescape_escape, escapeHTML_length, rfl, rfl, rfl, rfl, rfl,
    fun c h1 h2 h3 h4 h5 => ?_⟩
  simp [escapeHTML, escChar, h1, h2, h3, h4, h5]

/-- C5 (witness): the per-character clauses applied at concrete
characters. -/
theorem claimC5_witness :
    escapeHTML ['q'] = ['q'] :=
  claimC5.2.2.2.2.2.2.2.2.2 'q' (by decide) (by decide) (by decide)
    (by decide) (by decide)

/-- C6: `parseCandidates` passes structured arrays through, maps null to the
empty sequence, parses `[]` strictly, parses the single-quoted near-JSON
example through the lenient rewrite to a one-element sequence with title
`Foo` and confidence one half, and returns the empty sequence whenever the
strict parse, the lenient parse and the guarded evaluation all fail; being a
total function, it never propagates a parse error. -/
theorem claimC6 :
    (∀ (ev : List Char → Option JsVal) (xs : List JsVal),
      parseCandidates ev (.rcArr xs) = .jsArr xs) ∧
    (∀ ev : List Char → Option JsVal,
      parseCandidates ev .rcNull = .jsArr []) ∧
    (∀ ev : List Char → Option JsVal,
      parseCandidates ev (.rcStr ("[]".toList)) = .jsArr []) ∧
    (∀ ev : List Char → Option JsVal,
      parseCandidates ev
          (.rcStr ("[\x7b\x27title\x27: \x27Foo\x27, \x27confidence\x27: 0.5\x7d]".toList)) =
        .jsArr [.jsObj [("title".toList, .jsStr ("Foo".toList)),
          ("confidence".toList, .jsNum (1 / 2))]]) ∧
    (∀ (ev : List Char → Option JsVal) (s : List Char),
      jsonParse (jsTrim s) = none →
      jsonParse (lenientRewrite (jsTrim s)) = none →
      guardOk (jsTrim s) = false →
      parseCandidates ev (.rcStr s) = .jsArr []) := by
  refine ⟨fun ev xs => rfl, fun ev => rfl, fun ev => rfl, fun ev => ?_,
    fun ev s h1 h2 h3 => ?_⟩
  · have base : parseCandidates ev
        (.rcStr ("[\x7b\x27title\x27: \x27Foo\x27, \x27confidence\x27: 0.5\x7d]".toList)) =
        .jsArr [.jsObj [("title".toList, .jsStr ("Foo".toList)),
          ("confidence".toList, .jsNum ((digitsVal ['0'] : ℚ) + fracVal ['5']))]] := rfl
    have hq : ((digitsVal ['0'] : ℚ) + fracVal ['5']) = 1 / 2 := by
      simp only [fracVal, show digitsVal ['0'] = 0 from rfl,
        show digitsVal ['5'] = 5 from rfl, List.length_cons, List.length_nil]
      norm_num
    rw [base, hq]
  · by_cases htext : jsTrim s = []
    · simp [parseCandidates, htext]
    · simp [parseCandidates, htext, h1, h2, h3]

/-- C6 (witness): the all-stages-fail clause applied at the concrete string
`*`, which fails both parses and the guard. -/
theorem claimC6_witness :
    parseCandidates (fun _ => none) (.rcStr ("*".toList)) = .jsArr [] :=
  claimC6.2.2.2.2 (fun _ => none) ("*".toList) rfl rfl rfl

/-- C7: normalization rewrites the `equation` environment with an inner
`\label` to `\[E=mc^2\]` (delimiters converted, label deleted with no
residue), and the segmenter treats the whole normalized string as a single
math span whose internal characters are not escaped. -/
theorem claimC7 :
    normalizeLatex
        ("\\begin\x7bequation\x7dE=mc^2\\label\x7beq:1\x7d\\end\x7bequation\x7d".toList) =
      "\\[E=mc^2\\]".toList ∧
    segView ("\\[E=mc^2\\]".toList) = [(true, "\\[E=mc^2\\]".toList)] ∧
    processLatexForDisplay
        ("\\begin\x7bequation\x7dE=mc^2\\label\x7beq:1\x7d\\end\x7bequation\x7d".toList) =
      "\\[E=mc^2\\]".toList := by
  exact ⟨rfl, rfl, rfl⟩

/-- C8: inside math spans the TeX content is left intact except for the two
`\hspace` repairs: spans without `\hspace` pass through unchanged (the
character replaces of lines 70-71 are identities), an empty `\hspace\{\}` —
also with whitespace between the braces — becomes `\,`, a bare `\hspace` not
followed by a non-empty brace group becomes `\,`, and an `\hspace` with a
non-empty group is kept. -/
theorem claimC8 :
    (∀ m : List Char,
      hasSub ("\\hspace".toList) m = false → repairMath m = m) ∧
    processLatexForDisplay ("$a\\hspace\x7b\x7db$".toList) = "$a\\,b$".toList ∧
    processLatexForDisplay ("$a\\hspace \x7b \x7d b$".toList) =
      "$a\\, b$".toList ∧
    processLatexForDisplay ("$a \\hspace b$".toList) = "$a \\, b$".toList ∧
    processLatexForDisplay ("$\\hspace\x7b1em\x7d$".toList) =
      "$\\hspace\x7b1em\x7d$".toList := by
  exact ⟨fun m h => repairMath_id h, rfl, rfl, rfl, rfl⟩

/-- C8 (witness): the intactness clause applied at a concrete math span
without `\hspace`. -/
theorem claimC8_witness :
    repairMath ("$x+y$".toList) = "$x+y$".toList :=
  claimC8.1 ("$x+y$".toList) (by decide)

theorem formatConfidence_perc_example :
    formatConfidence (.cvNum (873 / 1000)) = "87%".toList := by
  have hle : ((873 : ℚ) / 1000) ≤ 1 := by norm_num
  have hfl : ratFloor ((873 : ℚ) / 1000 * 100 + 1 / 2) = 87 := by
    rw [ratFloor_eq_floor, Int.floor_eq_iff]
    constructor <;> norm_num
  simp only [formatConfidence, toNumber]
  rw [if_pos hle, hfl]
  rfl

theorem formatConfidence_int_example :
    formatConfidence (.cvNum 3) = "3".toList := by
  have hle : ¬ ((3 : ℚ) ≤ 1) := by norm_num
  have h0 : ¬ ((3 : ℚ) < 0) := by norm_num
  have habs : ratAbs 3 = 3 := by rw [ratAbs, if_neg h0]
  have hfl : ratFloor (3 : ℚ) = 3 := by
    rw [ratFloor_eq_floor, Int.floor_eq_iff]
    constructor <;> norm_num
  have hf : (3 : ℚ) - ((3 : ℤ) : ℚ) = 0 := by norm_num
  simp only [formatConfidence, toNumber]
  rw [if_neg hle]
  simp only [jsNumToString, habs, hfl, if_neg h0, hf, if_true]
  rfl

/-- C9: `formatConfidence` coerces to a number; a failed (non-finite)
coercion returns the stringified original unchanged; a finite value at most 1
is rendered as the value times 100, rounded to the nearest integer
(`Math.round`, half toward positive infinity), with `%` appended; a finite
value above 1 is stringified as-is.  In particular the three spec examples
hold. -/
theorem claimC9 :
    formatConfidence (.cvNum (873 / 1000)) = "87%".toList ∧
    formatConfidence (.cvNum 3) = "3".toList ∧
    formatConfidence (.cvStr ("abc".toList)) = "abc".toList ∧
    (∀ s : List Char, jsStringToNum s = none →
      formatConfidence (.cvStr s) = s) ∧
    (∀ q : ℚ, q ≤ 1 → formatConfidence (.cvNum q) =
      intToDigits ⌊q * 100 + 1 / 2⌋ ++ ['%']) ∧
    (∀ q : ℚ, 1 < q → formatConfidence (.cvNum q) = jsNumToString q) := by
  refine ⟨formatConfidence_perc_example, formatConfidence_int_example, rfl,
    fun s h => ?_, fun q hq => ?_, fun q hq => ?_⟩
  · simp [formatConfidence, toNumber, h, confToString]
  · simp only [formatConfidence, toNumber]
    rw [if_pos hq, ratFloor_eq_floor]
  · simp [formatConfidence, toNumber, not_le.mpr hq]

/-- C9 (witness): the non-finite and percentage clauses applied at concrete
inputs. -/
theorem claimC9_witness :
    formatConfidence (.cvStr ("zz".toList)) = "zz".toList :=
  claimC9.2.2.2.1 ("zz".toList) rfl

/-- C10: the allow-list guarding the last-resort evaluation admits arbitrary
ASCII letters and parentheses, so the non-literal string `alert(1)` — which
fails both the strict and the lenient JSON parse — passes the guard and is
handed to the unrestricted evaluator, whose result is returned. -/
theorem claimC10 :
    guardOk ("alert(1)".toList) = true ∧
    jsonParse (jsTrim ("alert(1)".toList)) = none ∧
    jsonParse (lenientRewrite (jsTrim ("alert(1)".toList))) = none ∧
    (∀ ev : List Char → Option JsVal,
      parseCandidates ev (.rcStr ("alert(1)".toList)) =
        (ev ("alert(1)".toList)).getD (.jsArr [])) := by
  refine ⟨rfl, rfl, rfl, fun ev => ?_⟩
  have base : parseCandidates ev (.rcStr ("alert(1)".toList)) =
      match ev ("alert(1)".toList) with
      | some v => v
      | none => JsVal.jsArr [] := rfl
  rw [base]
  cases ev ("alert(1)".toList) <;> rfl

end MarsScript
